import Mathlib

/-!
Verification development for the interactive Kubernetes port-forward script
(src/k8s-port-forward-script.js).  The JavaScript source is shallowly embedded:
pure functions become Lean functions over `String`/`List Char`/`Int`/`Nat`,
stateful fragments (the shutdown coordinator, the per-child output handlers,
the local-port configuration loop) become explicit state-passing functions,
and JS exceptions become `Option`/`Except`.  JS numbers are modelled as exact
integers (float rounding is not modelled); JS strings as Lean strings.
-/

/-! ## JavaScript string primitives -/

/-- Whitespace test used to model the JS whitespace class (space, tab, newline,
carriage return, vertical tab, form feed). -/
def isWsChar (c : Char) : Bool :=
  c == ' ' || c == '\t' || c == '\n' || c == '\r' || c == '\x0b' || c == '\x0c'

def trimCharList (cs : List Char) : List Char :=
  ((cs.dropWhile isWsChar).reverse.dropWhile isWsChar).reverse

/-- Model of JS `String.prototype.trim` (also the trimming that `prompt()`
applies to every answer before returning it). -/
def jsTrim (s : String) : String := String.mk (trimCharList s.data)

def splitCharGo (sep : Char) : List Char → List Char → List String
  | [], cur => [String.mk cur.reverse]
  | c :: cs, cur =>
    if c == sep then String.mk cur.reverse :: splitCharGo sep cs []
    else splitCharGo sep cs (c :: cur)

/-- Model of JS `split` with a one-character separator (the source only splits
on `"\n"`, `","` and `"-"`).  Like in JS, the result is never empty, a leading
or trailing separator produces an empty piece, and `""` splits to `[""]`. -/
def jsSplitChar (sep : Char) (s : String) : List String := splitCharGo sep s.data []

def wsSplitGo : List Char → List Char → Bool → List String
  | [], cur, _ => [String.mk cur.reverse]
  | c :: cs, cur, lastWs =>
    if isWsChar c then
      if lastWs then wsSplitGo cs [] true
      else String.mk cur.reverse :: wsSplitGo cs [] true
    else wsSplitGo cs (c :: cur) false

/-- Model of JS `split` on a run-of-whitespace regular expression: maximal
whitespace runs separate the pieces; a leading (resp. trailing) run produces a
leading (resp. trailing) empty piece, and `""` splits to `[""]`. -/
def jsSplitWs (s : String) : List String := wsSplitGo s.data [] false

def isDigitCh (c : Char) : Bool := decide (48 ≤ c.toNat) && decide (c.toNat ≤ 57)

/-- Value of a decimal or hexadecimal digit character, `none` otherwise. -/
def hexVal? (c : Char) : Option Nat :=
  if 48 ≤ c.toNat ∧ c.toNat ≤ 57 then some (c.toNat - 48)
  else if 97 ≤ c.toNat ∧ c.toNat ≤ 102 then some (c.toNat - 87)
  else if 65 ≤ c.toNat ∧ c.toNat ≤ 70 then some (c.toNat - 55)
  else none

def natOfDigits (base : Nat) (ds : List Char) : Nat :=
  ds.foldl (fun a c => a * base + ((hexVal? c).getD 0)) 0

/-- Model of JS `parseInt`.  With `autoHex := true` it models the radix-free
call `parseInt(s)` (leading `0x`/`0X` selects base 16); with `autoHex := false`
it models `parseInt(s, 10)`.  Leading whitespace is skipped, an optional sign
is read, then the maximal run of digits; `none` models `NaN` (no digits). -/
def jsParseIntGen (autoHex : Bool) (s : String) : Option Int :=
  let cs0 := s.data.dropWhile isWsChar
  let sgn : Int := match cs0 with | '-' :: _ => -1 | _ => 1
  let cs1 := match cs0 with | '-' :: t => t | '+' :: t => t | _ => cs0
  let hx : Option (List Char) :=
    if autoHex then
      match cs1 with
      | '0' :: 'x' :: t => some t
      | '0' :: 'X' :: t => some t
      | _ => none
    else none
  match hx with
  | some t =>
    let ds := t.takeWhile (fun c => (hexVal? c).isSome)
    if ds.isEmpty then none else some (sgn * (natOfDigits 16 ds : Int))
  | none =>
    let ds := cs1.takeWhile isDigitCh
    if ds.isEmpty then none else some (sgn * (natOfDigits 10 ds : Int))

def jsParseInt10 (s : String) : Option Int := jsParseIntGen false s

def jsParseIntAuto (s : String) : Option Int := jsParseIntGen true s

/-- Model of the JS idiom `v || d` applied to a parsed integer: `NaN` (here
`none`), `0` and `-0` are falsy and give the default. -/
def jsOrElse (o : Option Int) (d : Int) : Int :=
  match o with
  | none => d
  | some v => if v = 0 then d else v

/-! ## Decimal rendering of numbers (JS `String(n)` / template literals) -/

def natReprAux : Nat → Nat → List Char
  | 0, _ => []
  | fuel+1, n =>
    if n < 10 then [Nat.digitChar n]
    else natReprAux fuel (n / 10) ++ [Nat.digitChar (n % 10)]

/-- Decimal representation of a natural number; models JS `String(p)` for the
nonnegative integers handled by the script. -/
def natRepr (n : Nat) : String := String.mk (natReprAux (n + 1) n)

def intRepr (n : Int) : String :=
  if n < 0 then "-" ++ natRepr n.natAbs else natRepr n.toNat

/-! ## Model of JS `Number(value)` restricted to finite-integer detection -/

def baseDigitsOk (base : Nat) (ds : List Char) : Bool :=
  ds.all (fun c => match hexVal? c with | some v => decide (v < base) | none => false)

def expParse (cs : List Char) : Option Int × List Char :=
  let p : Int × List Char := match cs with
    | '-' :: t => (-1, t)
    | '+' :: t => (1, t)
    | _ => (1, cs)
  let ds := p.2.takeWhile isDigitCh
  if ds.isEmpty then (none, p.2)
  else (some (p.1 * (natOfDigits 10 ds : Int)), p.2.drop ds.length)

/-- Exact-integer value of a JS decimal numeric literal body (digits, optional
fraction, optional exponent); `none` when the text is not a valid literal or
its exact value is not an integer. -/
def decIntVal? (sgn : Int) (cs : List Char) : Option Int :=
  let ipart := cs.takeWhile isDigitCh
  let rest1 := cs.drop ipart.length
  let fp : List Char × List Char := match rest1 with
    | '.' :: t => (t.takeWhile isDigitCh, t.drop (t.takeWhile isDigitCh).length)
    | _ => ([], rest1)
  if ipart.isEmpty ∧ fp.1.isEmpty then none
  else
    let ep : Option Int × List Char := match fp.2 with
      | 'e' :: t => expParse t
      | 'E' :: t => expParse t
      | _ => (some 0, fp.2)
    match ep.1 with
    | none => none
    | some ex =>
      if ep.2.isEmpty then
        let mant : Nat := natOfDigits 10 (ipart ++ fp.1)
        let esh : Int := ex - (fp.1.length : Int)
        if 0 ≤ esh then some (sgn * (mant : Int) * (10 : Int) ^ esh.toNat)
        else if (10 : Nat) ^ (-esh).toNat ∣ mant then
          some (sgn * ((mant / (10 : Nat) ^ (-esh).toNat : Nat) : Int))
        else none
      else none

/-- Model of JS `Number(value)` keeping only what `isValidPort` observes:
`some k` when the conversion yields (exactly) the finite integer `k`, `none`
when it yields `NaN`, an infinity, or a non-integer.  Float rounding is not
modelled (values are computed exactly). -/
def jsNumberInt? (s : String) : Option Int :=
  let cs := trimCharList s.data
  if cs.isEmpty then some 0
  else
    let signed : Bool := match cs with | '-' :: _ => true | '+' :: _ => true | _ => false
    let sgn : Int := match cs with | '-' :: _ => -1 | _ => 1
    let cs1 : List Char := match cs with | '-' :: t => t | '+' :: t => t | _ => cs
    if cs1 = "Infinity".data then none
    else
      match cs1 with
      | '0' :: 'x' :: t => if signed ∨ t.isEmpty ∨ ¬ baseDigitsOk 16 t then none else some (natOfDigits 16 t : Int)
      | '0' :: 'X' :: t => if signed ∨ t.isEmpty ∨ ¬ baseDigitsOk 16 t then none else some (natOfDigits 16 t : Int)
      | '0' :: 'o' :: t => if signed ∨ t.isEmpty ∨ ¬ baseDigitsOk 8 t then none else some (natOfDigits 8 t : Int)
      | '0' :: 'O' :: t => if signed ∨ t.isEmpty ∨ ¬ baseDigitsOk 8 t then none else some (natOfDigits 8 t : Int)
      | '0' :: 'b' :: t => if signed ∨ t.isEmpty ∨ ¬ baseDigitsOk 2 t then none else some (natOfDigits 2 t : Int)
      | '0' :: 'B' :: t => if signed ∨ t.isEmpty ∨ ¬ baseDigitsOk 2 t then none else some (natOfDigits 2 t : Int)
      | _ => decIntVal? sgn cs1

/-! ## Embedded source helpers -/

/-- Embeds `isValidPort(value)` from the source:
`Number.isInteger(Number(value)) and 0 < n and n <= 65535`. -/
def isValidPort (value : String) : Bool :=
  match jsNumberInt? value with
  | some n => decide (0 < n) && decide (n ≤ 65535)
  | none => false

/-- Model of JS `Array.prototype.indexOf` (`-1` when absent). -/
def jsIndexOf (l : List String) (x : String) : Int :=
  match l.findIdx? (fun y => y == x) with
  | some i => (i : Int)
  | none => -1

/-- Model of JS array indexing `l[i]`: `undefined` (here `none`) for a negative
or out-of-range index. -/
def jsGet (l : List String) (i : Int) : Option String :=
  if 0 ≤ i then l.get? i.toNat else none

/-- Loop body of `nextAvailablePort`: scans upward from `p`, consuming fuel;
`none` models divergence of the JS `while` loop (shown unreachable below). -/
def nextAvailGo (reserved : List String) : Nat → Nat → Option String
  | 0, _ => none
  | fuel+1, p =>
    if natRepr p ∈ reserved then nextAvailGo reserved fuel (p + 1)
    else some (natRepr p)

/-- Embeds `nextAvailablePort(startPort, reservedPorts)`: the JS loop
`while (reservedPorts.has(String(p))) p++; return String(p)`.  The fuel
`reserved.length + 1` always suffices (proved below), so `none` never occurs. -/
def nextAvailablePort (startPort : Nat) (reserved : List String) : Option String :=
  nextAvailGo reserved (reserved.length + 1) startPort

/-! ## Selection resolver (`parseMultiSelect`) and the three indexed prompts -/

/-- The nonempty trimmed comma-separated tokens of a selection string:
`raw.split(",").map(p => p.trim()).filter(Boolean)` applied to the trimmed
input. -/
def selTokens (input : String) : List String :=
  ((jsSplitChar ',' (jsTrim input)).map jsTrim).filter (fun t => t ≠ "")

/-- JS `Set` insertion: append the element unless already present (insertion
order preserved, duplicates collapsed). -/
def addUnique (acc : List Int) (n : Int) : List Int :=
  if n ∈ acc then acc else acc ++ [n]

/-- Token loop of `parseMultiSelect`: parse each token with `parseInt(p, 10)`,
fail the whole selection when the value is `NaN` (`none`) or out of
`[1, maxN]`, otherwise accumulate into the set. -/
def pmsGo (maxN : Nat) : List String → List Int → Option (List Int)
  | [], acc => some acc
  | p :: ps, acc =>
    match jsParseInt10 p with
    | none => none
    | some n =>
      if n < 1 ∨ n > (maxN : Int) then none
      else pmsGo maxN ps (addUnique acc n)

/-- Embeds `parseMultiSelect(input, max)`: trimmed-empty input is the valid
empty selection; otherwise the token loop runs and the accumulated set is
returned ascending-sorted (JS `Array.from(set).sort((x, y) => x - y)`). -/
def parseMultiSelect (input : String) (maxN : Nat) : Option (List Int) :=
  if jsTrim input = "" then some []
  else
    match pmsGo maxN (selTokens input) [] with
    | none => none
    | some acc => some (List.insertionSort (fun a b => a ≤ b) acc)

/-- Embeds the namespace prompt handling (`parseInt(nsAnswer) || 0`, abort when
the value is negative or exceeds the namespace count, index `0` meaning
all-namespaces).  `none` = abort the run; `some none` = all-namespaces default;
`some (some i)` = the 0-based selected index. -/
def nsSelect (answer : String) (count : Nat) : Option (Option Nat) :=
  let nsIndex : Int := jsOrElse (jsParseIntAuto answer) 0
  if nsIndex < 0 ∨ nsIndex > (count : Int) then none
  else some (if nsIndex > 0 then some (nsIndex.toNat - 1) else none)

/-- Embeds the environment prompt handling (`Number.parseInt(envAnswer, 10) || 1`,
skip the service when the value is outside `[1, count]`).  `none` = skip;
`some i` = the 0-based selected index. -/
def envSelect (answer : String) (count : Nat) : Option Nat :=
  let envChoice : Int := jsOrElse (jsParseInt10 answer) 1
  if envChoice < 1 ∨ envChoice > (count : Int) then none
  else some (envChoice.toNat - 1)

/-- Embeds the service prompt handling: `parseMultiSelect` plus the
`!selectedNumbers || selectedNumbers.length === 0` abort check.
`none` = abort the run; `some l` = the accepted selection. -/
def serviceSelect (answer : String) (count : Nat) : Option (List Int) :=
  match parseMultiSelect answer count with
  | none => none
  | some l => if l.isEmpty then none else some l

/-! ## Catalog parser (`parseServicesMap`) -/

/-- One catalog value: `{id, namespace, serviceName}`.  The `namespace` field
is `Option` because the JS value can be `undefined` (no explicit namespace and
no NAMESPACE column). -/
structure Svc where
  id : String
  «namespace» : Option String
  serviceName : String
deriving DecidableEq, Repr

/-- The nested JS `Map` (short service name → environment → Svc) modelled flat,
keyed by the pair (short service name, environment tag). -/
abbrev Catalog := List ((String × String) × Svc)

def envPrefixes : List String := ["dev", "qa", "stg", "prod"]

def strStartsWith (s pre : String) : Bool := pre.data.isPrefixOf s.data

def strDrop (s : String) (n : Nat) : String := String.mk (s.data.drop n)

/-- Strip one leading occurrence of `pre` (models `replace` with an anchored
pattern built from a literal; namespace names contain no pattern
metacharacters). -/
def stripOnce (pre s : String) : String :=
  if strStartsWith s pre then strDrop s pre.length else s

/-- Strip one leading environment marker (`dev-`, `qa-`, `stg-`, `prod-`),
modelling the anchored alternation pattern built from `envPrefixes`. -/
def stripEnvTag (s : String) : String :=
  match envPrefixes.find? (fun e => strStartsWith s (e ++ "-")) with
  | some e => strDrop s (e.length + 1)
  | none => s

/-- Environment tag of a workload name: the first of `envPrefixes` whose
`env ++ "-"` prefixes the name, else `"default"`. -/
def envTagOf (nameColumn : String) : String :=
  (envPrefixes.find? (fun e => strStartsWith nameColumn (e ++ "-"))).getD "default"

/-- `namespace ?? columns[namespaceIndex]`. -/
def nsColumnOf (nsArg : Option String) (namespaceIndex : Int) (columns : List String) : Option String :=
  match nsArg with
  | some v => some v
  | none => jsGet columns namespaceIndex

/-- `parts.slice(0, -2).join("-")`. -/
def serviceNameOf (nameColumn : String) : String :=
  let parts := jsSplitChar '-' nameColumn
  String.intercalate "-" (parts.take (parts.length - 2))

/-- `parts.slice(-2).join("-")`. -/
def serviceIdOf (nameColumn : String) : String :=
  let parts := jsSplitChar '-' nameColumn
  String.intercalate "-" (parts.drop (parts.length - 2))

/-- The short service name: the service name with one environment marker and,
when the namespace value is present and nonempty (JS truthiness), one leading
`namespace-` occurrence stripped. -/
def shortNameOf (nsCol : Option String) (nameColumn : String) : String :=
  let s0 := stripEnvTag (serviceNameOf nameColumn)
  match nsCol with
  | some nsc => if nsc ≠ "" then stripOnce (nsc ++ "-") s0 else s0
  | none => s0

/-- `servicesMap.get(short)[env] = value`, on the flattened catalog: replace in
place when the key pair exists, append otherwise. -/
def upsert (m : Catalog) (k : String × String) (v : Svc) : Catalog :=
  if m.any (fun e => decide (e.1 = k)) then
    m.map (fun e => if e.1 = k then (k, v) else e)
  else m ++ [(k, v)]

/-- Body of one loop iteration of `parseServicesMap` after the status check:
reading `columns[nameIndex]` when it is `undefined` throws (`none`); a name
with fewer than 3 hyphen segments is skipped; otherwise the derived entry is
upserted. -/
def rowBody (nsArg : Option String) (namespaceIndex nameIndex : Int)
    (m : Catalog) (columns : List String) : Option Catalog :=
  match jsGet columns nameIndex with
  | none => none
  | some nameColumn =>
    if (jsSplitChar '-' nameColumn).length > 2 then
      some (upsert m (shortNameOf (nsColumnOf nsArg namespaceIndex columns) nameColumn, envTagOf nameColumn)
        { id := serviceIdOf nameColumn
        , «namespace» := nsColumnOf nsArg namespaceIndex columns
        , serviceName := serviceNameOf nameColumn })
    else some m

/-- One loop iteration of `parseServicesMap`: when a STATUS column exists and
the row's status cell is present and differs from `"Running"`, the row is
skipped (`continue`); otherwise the row body runs. -/
def rowStep (nsArg : Option String) (namespaceIndex nameIndex statusIndex : Int)
    (m : Catalog) (line : String) : Option Catalog :=
  let columns := jsSplitWs line
  let statusColumn : Option String :=
    if statusIndex ≠ -1 then jsGet columns statusIndex else none
  match statusColumn with
  | some st => if st ≠ "Running" then some m else rowBody nsArg namespaceIndex nameIndex m columns
  | none => rowBody nsArg namespaceIndex nameIndex m columns

/-- The `for` loop of `parseServicesMap` over the data rows. -/
def buildFrom (nsArg : Option String) (namespaceIndex nameIndex statusIndex : Int)
    (m : Catalog) : List String → Option Catalog
  | [] => some m
  | r :: rs =>
    match rowStep nsArg namespaceIndex nameIndex statusIndex m r with
    | none => none
    | some m' => buildFrom nsArg namespaceIndex nameIndex statusIndex m' rs

/-- `podsData.trim().split("\n")[0]` (the header line). -/
def headLine (podsData : String) : String :=
  (jsSplitChar '\n' (jsTrim podsData)).headD ""

/-- The data rows `lines[1..]`. -/
def dataRows (podsData : String) : List String :=
  (jsSplitChar '\n' (jsTrim podsData)).tail

/-- Embeds `parseServicesMap(podsData, namespace)`.  `none` models the JS
`TypeError` thrown when `columns[nameIndex]` is `undefined` in a row that
reaches the name handling. -/
def parseServicesMap (podsData : String) (nsArg : Option String) : Option Catalog :=
  let headers := jsSplitWs (headLine podsData)
  buildFrom nsArg (jsIndexOf headers "NAMESPACE") (jsIndexOf headers "NAME")
    (jsIndexOf headers "STATUS") [] (dataRows podsData)

/-- A row passes the status filter: its status cell is missing or `"Running"`. -/
def statusKeep (statusIndex : Int) (row : String) : Bool :=
  match jsGet (jsSplitWs row) statusIndex with
  | some st => st == "Running"
  | none => true

/-- A row carries a service: its name cell exists and has at least 3 hyphen
segments. -/
def rowHasService (nameIndex : Int) (row : String) : Bool :=
  match jsGet (jsSplitWs row) nameIndex with
  | some nm => decide ((jsSplitChar '-' nm).length > 2)
  | none => false

/-- The catalog key a row contributes (meaningful under `rowHasService`). -/
def rowKey (nsArg : Option String) (namespaceIndex nameIndex : Int) (row : String) : String × String :=
  let columns := jsSplitWs row
  match jsGet columns nameIndex with
  | none => ("", "")
  | some nameColumn => (shortNameOf (nsColumnOf nsArg namespaceIndex columns) nameColumn, envTagOf nameColumn)

/-! ## Local-port configuration loop -/

/-- The `while (true)` local-port prompt loop for one session, driven by the
list of answers the user types: an empty answer defaults to the suggestion;
an invalid or already-reserved port re-prompts; an accepted port is added to
the reserved set.  `none` models the loop still waiting for further input. -/
def acquireLocalPort (reserved : List String) (suggested : String) :
    List String → Option (String × List String)
  | [] => none
  | a :: rest =>
    let localPort := if a = "" then suggested else a
    if isValidPort localPort = false then acquireLocalPort reserved suggested rest
    else if localPort ∈ reserved then acquireLocalPort reserved suggested rest
    else some (localPort, reserved ++ [localPort])

/-- The per-session port phase of the configuration loop: compute the
suggestion from the current reserved set, run the prompt loop, thread the
grown reserved set to the next session.  Returns the finalized local ports. -/
def runPortPrompts : List (List String) → List String → Option (List String)
  | [], _ => some []
  | answers :: more, reserved =>
    match nextAvailablePort 3000 reserved with
    | none => none
    | some suggested =>
      match acquireLocalPort reserved suggested answers with
      | none => none
      | some pr =>
        match runPortPrompts more pr.2 with
        | none => none
        | some ps => some (pr.1 :: ps)

/-! ## Destination-port prompt and tunnel arguments -/

structure DestPort where
  servicePort : String
  warned : Bool
deriving DecidableEq

/-- Embeds the destination-port handling: `servicePort = answer || detected`;
a warning is printed when `isValidPort(servicePort)` fails (with no retry and
no override); the stored value is `answer ? servicePort : detected`. -/
def destPortOf (servicePortAnswer servicePortDetected : String) : DestPort :=
  let servicePort := if servicePortAnswer = "" then servicePortDetected else servicePortAnswer
  { servicePort := if servicePortAnswer = "" then servicePortDetected else servicePort
  , warned := ! isValidPort servicePort }

/-- The `kubectl port-forward` argument vector built for one session. -/
def portForwardArgs (serviceNamespace podName localPort servicePort : String) : List String :=
  ["port-forward", "--namespace", serviceNamespace, podName, localPort ++ ":" ++ servicePort]

/-! ## Port detection (`getServicePort`) -/

structure PortDetection where
  port : String
  messages : List String
deriving DecidableEq

/-- Embeds `getServicePort`: the external command's outcome is the
`Except String String` argument; on success the detected output is returned,
on failure the error is logged and the literal `"3000"` is returned.  The
function is total: no failure escapes it. -/
def getServicePort (execResult : Except String String) : PortDetection :=
  match execResult with
  | Except.ok out => { port := out, messages := ["Port detected: " ++ out] }
  | Except.error e => { port := "3000", messages := ["Error detecting port: " ++ e] }

/-! ## Shutdown coordinator (`attachGracefulShutdown`) -/

/-- A shutdown trigger: an interrupt signal, a termination signal, or a direct
call to the returned `shutdown` function. -/
inductive STrigger where
  | sigint : STrigger
  | sigterm : STrigger
  | direct : Option String → STrigger
deriving DecidableEq

def reasonOf : STrigger → Option String
  | STrigger.sigint => some "SIGINT / Ctrl+C"
  | STrigger.sigterm => some "SIGTERM"
  | STrigger.direct r => r

structure ShutdownState where
  isShuttingDown : Bool
  announcements : Nat
  kills : List Nat
  rlClosed : Bool
deriving DecidableEq

def shutdownInit : ShutdownState :=
  { isShuttingDown := false, announcements := 0, kills := [], rlClosed := false }

/-- Embeds the `shutdown(reason)` closure: a no-op when already shutting down;
otherwise it flips the flag, prints the announcement when `reason` is truthy,
closes the prompt interface, and issues one termination attempt
(`killPortForwardProcess`) per tracked child.  Children are modelled by
process ids (`Nat`); one element appended to `kills` is one attempt. -/
def shutdown (processes : List Nat) (reason : Option String) (st : ShutdownState) : ShutdownState :=
  if st.isShuttingDown then st
  else
    { isShuttingDown := true
    , announcements := st.announcements + (match reason with | some r => if r = "" then 0 else 1 | none => 0)
    , kills := st.kills ++ processes
    , rlClosed := true }

/-- A whole sequence of shutdown triggers delivered to a fresh coordinator. -/
def runTriggers (processes : List Nat) (ts : List STrigger) : ShutdownState :=
  ts.foldl (fun st t => shutdown processes (reasonOf t) st) shutdownInit

/-! ## Child output multiplexing (`writePrefixedLines` and the stdout handler) -/

inductive Color where
  | reset | red | green | yellow | magenta | cyan
deriving DecidableEq

/-- `data.replace(/\r\n/g, "\n").replace(/\r/g, "\n")`: a CRLF pair becomes
one newline, any remaining CR becomes a newline. -/
def normalizeNewlines : List Char → List Char
  | [] => []
  | [c] => if c = '\r' then ['\n'] else [c]
  | c :: c2 :: cs =>
    if c = '\r' then
      if c2 = '\n' then '\n' :: normalizeNewlines cs
      else '\n' :: normalizeNewlines (c2 :: cs)
    else c :: normalizeNewlines (c2 :: cs)

/-- Drop only a final empty piece (the trailing empty line produced by `split`
when the chunk ends with a newline). -/
def dropTrailingEmpty : List String → List String
  | [] => []
  | [x] => if x = "" then [] else [x]
  | x :: xs => x :: dropTrailingEmpty xs

/-- Embeds `writePrefixedLines(colorCode, prefix, data)`: normalize newlines,
split into lines, drop a trailing empty line, and emit each line with the
per-session label.  Each emitted terminal write is a (color, text) pair. -/
def writePrefixedLines (color : Color) (pfx : String) (data : String) : List (Color × String) :=
  (dropTrailingEmpty (jsSplitChar '\n' (String.mk (normalizeNewlines data.data)))).map
    (fun l => (color, pfx ++ " " ++ l))

inductive ChildEvent where
  | stdout : String → ChildEvent
  | stderr : String → ChildEvent
deriving DecidableEq

def isStdoutEv : ChildEvent → Bool
  | ChildEvent.stdout _ => true
  | ChildEvent.stderr _ => false

def isStderrEv : ChildEvent → Bool
  | ChildEvent.stdout _ => false
  | ChildEvent.stderr _ => true

structure ChildState where
  printedAvailable : Bool
  out : List (Color × String)
deriving DecidableEq

def childInit : ChildState := { printedAvailable := false, out := [] }

def availableMsg (localPort : String) : String :=
  "Service available at: http://localhost:" ++ localPort

/-- The single announcement write (magenta, like the source's `c.magenta`). -/
def annLine (pfx localPort : String) : Color × String :=
  (Color.magenta, pfx ++ " " ++ availableMsg localPort)

/-- Embeds the two stream handlers attached to a spawned tunnel child: the
stdout handler prints the availability announcement before the first chunk's
own prefixed content (guarded by the `printedAvailable` flag), then the chunk
in green; the stderr handler prints the chunk in red. -/
def childStep (pfx localPort : String) (st : ChildState) : ChildEvent → ChildState
  | ChildEvent.stdout chunk =>
    let st1 := if st.printedAvailable then st
      else { printedAvailable := true
           , out := st.out ++ writePrefixedLines Color.magenta pfx (availableMsg localPort) }
    { st1 with out := st1.out ++ writePrefixedLines Color.green pfx chunk }
  | ChildEvent.stderr chunk =>
    { st with out := st.out ++ writePrefixedLines Color.red pfx chunk }

/-- A whole sequence of stream events delivered to one child's handlers. -/
def runChild (pfx localPort : String) (events : List ChildEvent) : ChildState :=
  events.foldl (childStep pfx localPort) childInit

/-- Number of announcement (magenta) writes among the emitted writes; the
stdout/stderr/exit handlers write only green, red and cyan. -/
def annCount (outs : List (Color × String)) : Nat :=
  (outs.filter (fun x => decide (x.1 = Color.magenta))).length

/-- Rendering of a list of events as the handlers would print them with the
flag already set (no announcement). -/
def renderEvs (pfx : String) (evs : List ChildEvent) : List (Color × String) :=
  (evs.map (fun e => match e with
    | ChildEvent.stdout c => writePrefixedLines Color.green pfx c
    | ChildEvent.stderr c => writePrefixedLines Color.red pfx c)).flatten

/-- The string contains no newline characters (ports do in practice). -/
def noNewlineStr (s : String) : Bool :=
  s.data.all (fun c => !(c == '\n') && !(c == '\r'))

/-! ## Auxiliary definitions used only in statements and proofs -/

/-- Decimal read-back of a digit list (proof device for the injectivity of
`natRepr`). -/
def unReprList (cs : List Char) : Nat :=
  cs.foldl (fun a c => a * 10 + (c.toNat - 48)) 0

/-- The catalog entry a data row contributes, if any: `none` when the name
cell is missing (the crash case) or the name has fewer than 3 hyphen
segments.  By construction this is exactly the entry `rowBody` upserts. -/
def derivedEntry? (nsArg : Option String) (namespaceIndex nameIndex : Int)
    (row : String) : Option ((String × String) × Svc) :=
  let columns := jsSplitWs row
  match jsGet columns nameIndex with
  | none => none
  | some nameColumn =>
    if (jsSplitChar '-' nameColumn).length > 2 then
      some ((shortNameOf (nsColumnOf nsArg namespaceIndex columns) nameColumn, envTagOf nameColumn),
        { id := serviceIdOf nameColumn
        , «namespace» := nsColumnOf nsArg namespaceIndex columns
        , serviceName := serviceNameOf nameColumn })
    else none

/-- Sample listing text with a STATUS column (one Running row, one Pending
row). -/
def samplePodsStatus : String :=
  "NAMESPACE NAME STATUS\nteam1 dev-checkout-abc-123 Running\nteam1 qa-cart-def-456 Pending"

/-- Sample listing text without a STATUS column. -/
def samplePodsNoStatus : String :=
  "NAMESPACE NAME\nteam1 dev-checkout-abc-123"

/-- When the token loop rejects a token: its `parseInt(p, 10)` value is `NaN`
or lies outside `[1, maxN]`. -/
def tokenBad (t : String) (maxN : Nat) : Bool :=
  match jsParseInt10 t with
  | none => true
  | some n => decide (n < 1) || decide (n > (maxN : Int))

/-! # Theorems -/

/-! ## Decimal rendering: injectivity -/

theorem digitChar_toNat : ∀ d, d < 10 → (Nat.digitChar d).toNat = d + 48 := by decide

theorem unReprList_append (xs : List Char) (c : Char) :
    unReprList (xs ++ [c]) = unReprList xs * 10 + (c.toNat - 48) := by
  simp [unReprList, List.foldl_append]

theorem natReprAux_unRepr : ∀ fuel n, n < fuel → unReprList (natReprAux fuel n) = n := by
  intro fuel
  induction fuel with
  | zero => intro n h; omega
  | succ f ih =>
    intro n h
    by_cases h10 : n < 10
    · have hd := digitChar_toNat n h10
      simp [natReprAux, h10, unReprList]
      omega
    · have hdiv : n / 10 < f := by
        have h1 : n / 10 < n := Nat.div_lt_self (by omega) (by omega)
        omega
      have hd := digitChar_toNat (n % 10) (Nat.mod_lt _ (by omega))
      rw [natReprAux, if_neg h10, unReprList_append, ih (n / 10) hdiv]
      omega

theorem natRepr_inj : Function.Injective natRepr := by
  intro a b h
  have ha := natReprAux_unRepr (a + 1) a (by omega)
  have hb := natReprAux_unRepr (b + 1) b (by omega)
  have hdata : natReprAux (a + 1) a = natReprAux (b + 1) b := by
    have := congrArg String.data h
    simpa [natRepr] using this
  rw [hdata, hb] at ha
  exact ha.symm

/-! ## Port allocator -/

theorem exists_unreserved (startP : Nat) (res : List String) :
    ∃ k, k ≤ res.length ∧ natRepr (startP + k) ∉ res := by
  by_contra hc
  push_neg at hc
  have hinj : Function.Injective (fun k => natRepr (startP + k)) := by
    intro x y hxy
    have := natRepr_inj hxy
    omega
  have hnd : ((List.range (res.length + 1)).map (fun k => natRepr (startP + k))).Nodup :=
    List.Nodup.map hinj (List.nodup_range (res.length + 1))
  have hsub : ((List.range (res.length + 1)).map (fun k => natRepr (startP + k))).toFinset ⊆ res.toFinset := by
    intro x hx
    rw [List.mem_toFinset] at hx ⊢
    obtain ⟨k, hk, rfl⟩ := List.mem_map.mp hx
    exact hc k (by simpa using Nat.lt_succ_iff.mp (List.mem_range.mp hk))
  have h1 : ((List.range (res.length + 1)).map (fun k => natRepr (startP + k))).toFinset.card
      = res.length + 1 := by
    rw [List.toFinset_card_of_nodup hnd]
    simp
  have h2 : res.toFinset.card ≤ res.length := List.toFinset_card_le res
  have h3 := Finset.card_le_card hsub
  omega

theorem nextAvailGo_spec (res : List String) :
    ∀ fuel startP, (∃ k, k < fuel ∧ natRepr (startP + k) ∉ res) →
    ∃ p, nextAvailGo res fuel startP = some (natRepr p) ∧ startP ≤ p ∧
      natRepr p ∉ res ∧ ∀ q, startP ≤ q → q < p → natRepr q ∈ res := by
  intro fuel
  induction fuel with
  | zero =>
    rintro s ⟨k, hk, _⟩
    omega
  | succ f ih =>
    rintro s ⟨k, hk, hfree⟩
    by_cases hs : natRepr s ∈ res
    · have hk0 : k ≠ 0 := by
        rintro rfl
        exact hfree (by simpa using hs)
      obtain ⟨p, hgo, hle, hfr, hmin⟩ := ih (s + 1)
        ⟨k - 1, by omega, by
          have heq : s + 1 + (k - 1) = s + k := by omega
          rw [heq]; exact hfree⟩
      refine ⟨p, ?_, by omega, hfr, ?_⟩
      · rw [nextAvailGo, if_pos hs]; exact hgo
      · intro q hq1 hq2
        rcases Nat.eq_or_lt_of_le hq1 with rfl | hlt
        · exact hs
        · exact hmin q (by omega) hq2
    · exact ⟨s, by rw [nextAvailGo, if_neg hs], Nat.le_refl s, hs, by intro q h1 h2; omega⟩

/-- Claim C7: `nextAvailablePort(startPort, reservedPorts)` returns (the
decimal representation of) the smallest integer `p ≥ startPort` whose
representation is not a member of `reservedPorts`; in particular it returns
`"3000"` for start `3000` with an empty reserved set, and `"3002"` for start
`3000` with `{"3000","3001"}` reserved. -/
theorem nextAvailablePort_least :
    (∀ startPort reserved, ∃ p : Nat,
        nextAvailablePort startPort reserved = some (natRepr p) ∧
        startPort ≤ p ∧ natRepr p ∉ reserved ∧
        ∀ q, startPort ≤ q → q < p → natRepr q ∈ reserved)
    ∧ nextAvailablePort 3000 [] = some "3000"
    ∧ nextAvailablePort 3000 ["3000", "3001"] = some "3002" := by
  refine ⟨?_, by decide, by decide⟩
  intro s res
  obtain ⟨k, hk, hfree⟩ := exists_unreserved s res
  exact nextAvailGo_spec res (res.length + 1) s ⟨k, by omega, hfree⟩

/-! ## Local-port configuration loop -/

theorem acquireLocalPort_spec :
    ∀ (answers reserved : List String) (suggested p : String) (res' : List String),
    acquireLocalPort reserved suggested answers = some (p, res') →
    isValidPort p = true ∧ p ∉ reserved ∧ res' = reserved ++ [p] := by
  intro answers
  induction answers with
  | nil =>
    intro _ _ _ _ h
    simp [acquireLocalPort] at h
  | cons a rest ih =>
    intro reserved suggested p res' h
    simp only [acquireLocalPort] at h
    by_cases hv : isValidPort (if a = "" then suggested else a) = false
    · rw [if_pos hv] at h
      exact ih reserved suggested p res' h
    · rw [if_neg hv] at h
      by_cases hm : (if a = "" then suggested else a) ∈ reserved
      · rw [if_pos hm] at h
        exact ih reserved suggested p res' h
      · rw [if_neg hm] at h
        injection h with h'
        have hp := congrArg Prod.fst h'
        have hres := congrArg Prod.snd h'
        simp only at hp hres
        subst hp
        subst hres
        exact ⟨by revert hv; cases isValidPort (if a = "" then suggested else a) <;> simp, hm, rfl⟩

theorem runPortPrompts_aux :
    ∀ (sessions : List (List String)) (reserved : List String) (ports : List String),
    runPortPrompts sessions reserved = some ports →
    ports.Nodup ∧ ∀ p ∈ ports, isValidPort p = true ∧ p ∉ reserved := by
  intro sessions
  induction sessions with
  | nil =>
    intro reserved ports h
    rw [runPortPrompts] at h
    injection h with h'
    subst h'
    exact ⟨List.nodup_nil, by intro p hp; cases hp⟩
  | cons answers more ih =>
    intro reserved ports h
    rw [runPortPrompts] at h
    cases hsug : nextAvailablePort 3000 reserved with
    | none => simp only [hsug] at h; exact Option.noConfusion h
    | some suggested =>
      simp only [hsug] at h
      cases hacq : acquireLocalPort reserved suggested answers with
      | none => simp only [hacq] at h; exact Option.noConfusion h
      | some pr =>
        simp only [hacq] at h
        cases hrec : runPortPrompts more pr.2 with
        | none => simp only [hrec] at h; exact Option.noConfusion h
        | some ps =>
          simp only [hrec] at h
          obtain ⟨hval, hmem, hres⟩ := acquireLocalPort_spec answers reserved suggested pr.1 pr.2 (by rw [hacq])
          obtain ⟨hnd, hall⟩ := ih pr.2 ps hrec
          injection h with h'
          subst h'
          constructor
          · refine List.nodup_cons.mpr ⟨?_, hnd⟩
            intro hmem1
            have := (hall pr.1 hmem1).2
            rw [hres] at this
            exact this (List.mem_append.mpr (Or.inr (List.mem_singleton.mpr rfl)))
          · intro p hp
            rcases List.mem_cons.mp hp with rfl | hp'
            · exact ⟨hval, hmem⟩
            · have := hall p hp'
              rw [hres] at this
              exact ⟨this.1, fun hc => this.2 (List.mem_append.mpr (Or.inl hc))⟩

/-- Claim C6: throughout the configuration loop no two finalized sessions
share a local port; a typed or defaulted port is accepted only when it is a
valid port not already reserved, and acceptance appends it to the reserved
set used for the next session's prompt. -/
theorem localPorts_unique (sessions : List (List String)) (reserved0 ports : List String)
    (h : runPortPrompts sessions reserved0 = some ports) :
    ports.Nodup
    ∧ (∀ p ∈ ports, isValidPort p = true ∧ p ∉ reserved0)
    ∧ (∀ res sug ans p res', acquireLocalPort res sug ans = some (p, res') →
        isValidPort p = true ∧ p ∉ res ∧ res' = res ++ [p]) := by
  obtain ⟨h1, h2⟩ := runPortPrompts_aux sessions reserved0 ports h
  exact ⟨h1, h2, fun res sug ans p res' hacq => acquireLocalPort_spec ans res sug p res' hacq⟩

/-- Witness for C6: two sessions that both accept the default suggestion
starting at 3000 end with the distinct ports 3000 and 3001. -/
theorem localPorts_unique_witness :
    runPortPrompts [[""], [""]] [] = some ["3000", "3001"]
    ∧ List.Nodup ["3000", "3001"] :=
  ⟨by decide, (localPorts_unique [[""], [""]] [] ["3000", "3001"] (by decide)).1⟩

/-! ## Port detection fallback -/

/-- Claim C8: when the external port-detection command fails, `getServicePort`
returns the literal default `"3000"` and the run continues with it (the
function is total — the failure never escapes as an exception); on success the
detected output is returned instead. -/
theorem getServicePort_fallback (e : String) :
    (getServicePort (Except.error e)).port = "3000"
    ∧ (∀ out, (getServicePort (Except.ok out)).port = out)
    ∧ (destPortOf "" (getServicePort (Except.error e)).port).servicePort = "3000" := by
  exact ⟨rfl, fun _ => rfl, rfl⟩

/-! ## Destination port stored verbatim -/

/-- Claim C10: a non-empty destination-port answer is stored verbatim as the
session's `servicePort` and reaches the tunnel argument `local:service`, even
when `isValidPort` rejects it — in that case only a warning is flagged while
the typed value is still used. -/
theorem destPort_verbatim (ans det ns pod lp : String) (h : ans ≠ "") :
    (destPortOf ans det).servicePort = ans
    ∧ (isValidPort ans = false → (destPortOf ans det).warned = true)
    ∧ (portForwardArgs ns pod lp (destPortOf ans det).servicePort).getLast? = some (lp ++ ":" ++ ans) := by
  have h1 : (destPortOf ans det).servicePort = ans := by
    simp [destPortOf, h]
  refine ⟨h1, ?_, by rw [h1]; rfl⟩
  intro hv
  simp [destPortOf, h, hv]

/-- Witness for C10: the invalid typed destination port `"99999"` is stored
verbatim, flagged, and still reaches the tunnel argument. -/
theorem destPort_verbatim_witness :
    (destPortOf "99999" "3000").servicePort = "99999"
    ∧ (destPortOf "99999" "3000").warned = true
    ∧ (portForwardArgs "ns" "pod" "3001" (destPortOf "99999" "3000").servicePort).getLast?
        = some ("3001" ++ ":" ++ "99999") := by
  obtain ⟨h1, h2, h3⟩ := destPort_verbatim "99999" "3000" "ns" "pod" "3001" (by decide)
  exact ⟨h1, h2 (by decide), h3⟩

/-! ## Shutdown coordinator -/

theorem runTriggers_aux (processes : List Nat) :
    ∀ (ts : List STrigger) (st : ShutdownState),
    st.announcements ≤ 1 →
    (st.kills = [] ∨ st.kills = processes) →
    (st.isShuttingDown = false → st.announcements = 0 ∧ st.kills = []) →
    ((ts.foldl (fun s t => shutdown processes (reasonOf t) s) st).announcements ≤ 1
     ∧ ((ts.foldl (fun s t => shutdown processes (reasonOf t) s) st).kills = []
        ∨ (ts.foldl (fun s t => shutdown processes (reasonOf t) s) st).kills = processes)) := by
  intro ts
  induction ts with
  | nil => intro st h1 h2 _; exact ⟨h1, h2⟩
  | cons t ts ih =>
    intro st h1 h2 h3
    by_cases hsd : st.isShuttingDown = true
    · have heq : shutdown processes (reasonOf t) st = st := by
        simp [shutdown, hsd]
      rw [List.foldl_cons, heq]
      exact ih st h1 h2 h3
    · obtain ⟨ha0, hk0⟩ := h3 (by revert hsd; cases st.isShuttingDown <;> simp)
      have hst : shutdown processes (reasonOf t) st =
          { isShuttingDown := true
          , announcements := st.announcements + (match reasonOf t with | some r => if r = "" then 0 else 1 | none => 0)
          , kills := st.kills ++ processes
          , rlClosed := true } := by
        rw [shutdown.eq_def, if_neg hsd]
      rw [List.foldl_cons, hst]
      refine ih _ ?_ ?_ ?_
      · simp only [ha0]
        cases hr : reasonOf t with
        | none => simp
        | some r => by_cases hre : r = "" <;> simp [hre]
      · simp [hk0]
      · intro hfalse
        simp at hfalse
      

/-- Claim C3: for every sequence of shutdown triggers delivered to a fresh
coordinator, only the first one runs the cleanup: the announcement is printed
at most once, every tracked child receives at most one termination attempt
(the tracked set being duplicate-free), and `shutdown` is a no-op on a state
that is already shutting down. -/
theorem shutdown_idempotent (processes : List Nat) (ts : List STrigger)
    (hnd : processes.Nodup) :
    (runTriggers processes ts).announcements ≤ 1
    ∧ (∀ pid, (runTriggers processes ts).kills.count pid ≤ 1)
    ∧ (∀ reason st, st.isShuttingDown = true → shutdown processes reason st = st) := by
  obtain ⟨h1, h2⟩ := runTriggers_aux processes ts shutdownInit (by simp [shutdownInit])
    (Or.inl rfl) (fun _ => ⟨rfl, rfl⟩)
  refine ⟨h1, ?_, ?_⟩
  · intro pid
    rcases h2 with hk | hk <;> rw [runTriggers] at * <;> rw [hk]
    · simp
    · exact List.nodup_iff_count_le_one.mp hnd pid
  · intro reason st hsd
    simp [shutdown, hsd]

/-- Witness for C3: two interrupts followed by a termination signal announce
once and attempt each of the two tracked children at most once; a duplicate
call on the already-shutting-down state is the identity. -/
theorem shutdown_idempotent_witness :
    (runTriggers [10, 20] [STrigger.sigint, STrigger.sigint, STrigger.sigterm]).announcements ≤ 1
    ∧ (runTriggers [10, 20] [STrigger.sigint, STrigger.sigint, STrigger.sigterm]).kills.count 10 ≤ 1
    ∧ shutdown [10, 20] (some "SIGTERM")
        { isShuttingDown := true, announcements := 1, kills := [10, 20], rlClosed := true }
      = { isShuttingDown := true, announcements := 1, kills := [10, 20], rlClosed := true } := by
  obtain ⟨h1, h2, h3⟩ := shutdown_idempotent [10, 20]
    [STrigger.sigint, STrigger.sigint, STrigger.sigterm] (by decide)
  exact ⟨h1, h2 10, h3 (some "SIGTERM") _ rfl⟩

/-! ## Selection resolver -/

theorem pmsGo_fail (maxN : Nat) :
    ∀ (parts : List String) (t : String) (acc : List Int),
    t ∈ parts → tokenBad t maxN = true → pmsGo maxN parts acc = none := by
  intro parts
  induction parts with
  | nil => intro t acc h; cases h
  | cons p ps ih =>
    intro t acc hmem hbad
    rw [pmsGo]
    rcases List.mem_cons.mp hmem with rfl | hmem'
    · rw [tokenBad] at hbad
      cases hp : jsParseInt10 t with
      | none => simp only [hp]
      | some n =>
        simp only [hp] at hbad ⊢
        have hor : n < 1 ∨ n > (maxN : Int) := by
          rcases Bool.or_eq_true_iff.mp hbad with h | h
          · exact Or.inl (of_decide_eq_true h)
          · exact Or.inr (of_decide_eq_true h)
        rw [if_pos hor]
    · cases hp : jsParseInt10 p with
      | none => simp only [hp]
      | some n =>
        simp only [hp]
        by_cases hr : n < 1 ∨ n > (maxN : Int)
        · rw [if_pos hr]
        · rw [if_neg hr]
          exact ih t _ hmem' hbad

theorem parseMultiSelect_fail (input : String) (maxN : Nat) :
    ∀ t ∈ selTokens input, tokenBad t maxN = true → parseMultiSelect input maxN = none := by
  intro t hmem hbad
  by_cases hraw : jsTrim input = ""
  · exfalso
    have hempty : selTokens input = [] := by
      rw [selTokens, hraw]
      rfl
    rw [hempty] at hmem
    cases hmem
  · rw [parseMultiSelect, if_neg hraw, pmsGo_fail maxN (selTokens input) t [] hmem hbad]

theorem pmsGo_none_exists (maxN : Nat) :
    ∀ (parts : List String) (acc : List Int),
    pmsGo maxN parts acc = none → ∃ t ∈ parts, tokenBad t maxN = true := by
  intro parts
  induction parts with
  | nil =>
    intro acc h
    rw [pmsGo] at h
    exact Option.noConfusion h
  | cons p ps ih =>
    intro acc h
    rw [pmsGo] at h
    cases hp : jsParseInt10 p with
    | none =>
      refine ⟨p, List.mem_cons_self p ps, ?_⟩
      rw [tokenBad]
      simp only [hp]
    | some n =>
      simp only [hp] at h
      by_cases hb : n < 1 ∨ n > (maxN : Int)
      · refine ⟨p, List.mem_cons_self p ps, ?_⟩
        rw [tokenBad]
        simp only [hp]
        rcases hb with hb | hb <;> simp [hb]
      · rw [if_neg hb] at h
        obtain ⟨t, hmem, hbad⟩ := ih (addUnique acc n) h
        exact ⟨t, List.mem_cons_of_mem p hmem, hbad⟩

theorem parseMultiSelect_none_exists (input : String) (maxN : Nat)
    (h : parseMultiSelect input maxN = none) :
    ∃ t ∈ selTokens input, tokenBad t maxN = true := by
  rw [parseMultiSelect] at h
  by_cases hraw : jsTrim input = ""
  · rw [if_pos hraw] at h
    exact Option.noConfusion h
  · rw [if_neg hraw] at h
    cases hgo : pmsGo maxN (selTokens input) [] with
    | none => exact pmsGo_none_exists maxN (selTokens input) [] hgo
    | some acc =>
      simp only [hgo] at h
      exact Option.noConfusion h

theorem addUnique_sub (acc : List Int) (n : Int) :
    ∀ x ∈ addUnique acc n, x ∈ acc ∨ x = n := by
  intro x hx
  rw [addUnique] at hx
  by_cases hn : n ∈ acc
  · rw [if_pos hn] at hx
    exact Or.inl hx
  · rw [if_neg hn] at hx
    rcases List.mem_append.mp hx with h | h
    · exact Or.inl h
    · exact Or.inr (List.mem_singleton.mp h)

theorem addUnique_nodup (acc : List Int) (n : Int) (h : acc.Nodup) : (addUnique acc n).Nodup := by
  rw [addUnique]
  by_cases hn : n ∈ acc
  · rw [if_pos hn]; exact h
  · rw [if_neg hn]
    simp [List.nodup_append, h, hn]

theorem pmsGo_inv (maxN : Nat) :
    ∀ (parts : List String) (acc res : List Int),
    pmsGo maxN parts acc = some res →
    (∀ x ∈ acc, 1 ≤ x ∧ x ≤ (maxN : Int)) → acc.Nodup →
    (∀ x ∈ res, 1 ≤ x ∧ x ≤ (maxN : Int)) ∧ res.Nodup := by
  intro parts
  induction parts with
  | nil =>
    intro acc res h hr hn
    rw [pmsGo] at h
    injection h with h'
    subst h'
    exact ⟨hr, hn⟩
  | cons p ps ih =>
    intro acc res h hr hn
    rw [pmsGo] at h
    cases hp : jsParseInt10 p with
    | none => simp only [hp] at h; exact Option.noConfusion h
    | some n =>
      simp only [hp] at h
      by_cases hb : n < 1 ∨ n > (maxN : Int)
      · rw [if_pos hb] at h; exact Option.noConfusion h
      · rw [if_neg hb] at h
        refine ih (addUnique acc n) res h ?_ (addUnique_nodup acc n hn)
        intro x hx
        rcases addUnique_sub acc n x hx with hxa | rfl
        · exact hr x hxa
        · omega

/-- Claim C1 (counterexample): the token `"2x"` is not (the decimal
representation of) any integer in `[1, 5]`, yet `parseMultiSelect "2x" 5`
returns the selection `[2]` instead of the invalid marker — `parseInt`
accepts the numeric prefix of a token, so a non-integer token does not make
the selection invalid. -/
theorem parseMultiSelect_claim_cex :
    ("2x" ∈ selTokens "2x" ∧ ¬ ∃ n : Int, 1 ≤ n ∧ n ≤ 5 ∧ intRepr n = "2x")
    ∧ parseMultiSelect "2x" 5 = some [2] := by
  refine ⟨⟨by decide, ?_⟩, by decide⟩
  rintro ⟨n, h1, h5, he⟩
  interval_cases n <;> revert he <;> decide

/-- Claim C1 (amended): `parseMultiSelect` returns the invalid marker or a
duplicate-free ascending list of integers in `[1, maxIndex]`; input that is
empty after trimming returns the valid empty selection; and the whole result
is invalid exactly when some nonempty trimmed token has a base-10 `parseInt`
value that is missing (`NaN`) or outside `[1, maxIndex]` — both directions:
every such token invalidates the result, and an invalid result can only come
from such a token. -/
theorem parseMultiSelect_amended (input : String) (maxN : Nat) :
    (parseMultiSelect input maxN = none ∨
      ∃ l, parseMultiSelect input maxN = some l ∧ l.Sorted (· ≤ ·) ∧ l.Nodup ∧
        ∀ x ∈ l, 1 ≤ x ∧ x ≤ (maxN : Int))
    ∧ (jsTrim input = "" → parseMultiSelect input maxN = some [])
    ∧ (∀ t ∈ selTokens input, tokenBad t maxN = true → parseMultiSelect input maxN = none)
    ∧ (parseMultiSelect input maxN = none → ∃ t ∈ selTokens input, tokenBad t maxN = true) := by
  refine ⟨?_, ?_, parseMultiSelect_fail input maxN, parseMultiSelect_none_exists input maxN⟩
  · by_cases hraw : jsTrim input = ""
    · right
      exact ⟨[], by rw [parseMultiSelect, if_pos hraw], List.sorted_nil, List.nodup_nil,
        by intro x hx; cases hx⟩
    · cases hgo : pmsGo maxN (selTokens input) [] with
      | none =>
        left
        rw [parseMultiSelect, if_neg hraw, hgo]
      | some acc =>
        right
        obtain ⟨hrange, hnodup⟩ := pmsGo_inv maxN (selTokens input) [] acc hgo
          (by intro x hx; cases hx) List.nodup_nil
        refine ⟨List.insertionSort (fun a b => a ≤ b) acc, ?_, ?_, ?_, ?_⟩
        · rw [parseMultiSelect, if_neg hraw, hgo]
        · exact List.sorted_insertionSort (fun a b => a ≤ b) acc
        · exact ((List.perm_insertionSort (fun a b => a ≤ b) acc).symm).nodup hnodup
        · intro x hx
          exact hrange x ((List.perm_insertionSort (fun a b => a ≤ b) acc).mem_iff.mp hx)
  · intro hraw
    rw [parseMultiSelect, if_pos hraw]

/-- Witness for the amended C1: the empty input is the valid empty selection;
the out-of-range token `9` invalidates `"1,9"` entirely and, conversely, that
invalid result exhibits a bad token; a trailing comma (an empty token, which
`filter(Boolean)` drops) does not invalidate `"1,"`. -/
theorem parseMultiSelect_amended_witness :
    parseMultiSelect "" 5 = some []
    ∧ parseMultiSelect "1,9" 5 = none
    ∧ (∃ t ∈ selTokens "1,9", tokenBad t 5 = true)
    ∧ parseMultiSelect "1," 5 = some [1] := by
  have hbad : parseMultiSelect "1,9" 5 = none :=
    (parseMultiSelect_amended "1,9" 5).2.2.1 "9" (by decide) (by decide)
  exact ⟨(parseMultiSelect_amended "" 5).2.1 (by decide), hbad,
    (parseMultiSelect_amended "1,9" 5).2.2.2 hbad, by decide⟩

/-! ## The three indexed prompts -/

/-- Claim C2 (counterexample): the non-integer answer `"abc"` is accepted by
the namespace prompt (falling back to the all-namespaces default) and by the
environment prompt (falling back to the first environment), while the service
prompt rejects it atomically — the three prompts do not behave identically. -/
theorem prompts_not_identical_cex :
    nsSelect "abc" 2 = some none
    ∧ envSelect "abc" 2 = some 0
    ∧ serviceSelect "abc" 2 = none
    ∧ tokenBad "abc" 2 = true := by decide

/-- Claim C2 (amended): the prompts validate against their dynamic maxima but
not identically: the service prompt fails atomically when any token's parsed
value is missing or out of `[1, count]`; the namespace prompt coerces
unparsable input to the all-namespaces default and aborts exactly when the
coerced value is negative or exceeds the count; the environment prompt coerces
unparsable input to the first environment and skips exactly when the coerced
value is outside `[1, count]`. -/
theorem prompts_amended (answer : String) (count : Nat) (hc : 1 ≤ count) :
    (jsParseIntAuto answer = none → nsSelect answer count = some none)
    ∧ (jsParseInt10 answer = none → envSelect answer count = some 0)
    ∧ (∀ t ∈ selTokens answer, tokenBad t count = true → serviceSelect answer count = none)
    ∧ (nsSelect answer count = none ↔
        (jsOrElse (jsParseIntAuto answer) 0 < 0 ∨ jsOrElse (jsParseIntAuto answer) 0 > (count : Int)))
    ∧ (envSelect answer count = none ↔
        (jsOrElse (jsParseInt10 answer) 1 < 1 ∨ jsOrElse (jsParseInt10 answer) 1 > (count : Int))) := by
  refine ⟨?_, ?_, ?_, ?_, ?_⟩
  · intro h
    rw [nsSelect, h]
    have h0 : jsOrElse none 0 = 0 := rfl
    rw [h0]
    rw [if_neg (by omega)]
    rfl
  · intro h
    rw [envSelect, h]
    have h1 : jsOrElse none 1 = 1 := rfl
    rw [h1]
    rw [if_neg (by omega)]
    rfl
  · intro t hmem hbad
    rw [serviceSelect, parseMultiSelect_fail answer count t hmem hbad]
  · by_cases hcond : jsOrElse (jsParseIntAuto answer) 0 < 0 ∨ jsOrElse (jsParseIntAuto answer) 0 > (count : Int)
    · rw [nsSelect, if_pos hcond]
      simp [hcond]
    · rw [nsSelect, if_neg hcond]
      simp [hcond]
  · by_cases hcond : jsOrElse (jsParseInt10 answer) 1 < 1 ∨ jsOrElse (jsParseInt10 answer) 1 > (count : Int)
    · rw [envSelect, if_pos hcond]
      simp [hcond]
    · rw [envSelect, if_neg hcond]
      simp [hcond]

/-- Witness for the amended C2, at the concrete non-integer answer `"abc"`
with two listed choices. -/
theorem prompts_amended_witness :
    nsSelect "abc" 2 = some none ∧ envSelect "abc" 2 = some 0 ∧ serviceSelect "abc" 2 = none := by
  obtain ⟨h1, h2, h3, _, _⟩ := prompts_amended "abc" 2 (by decide)
  exact ⟨h1 (by decide), h2 (by decide), h3 "abc" (by decide) (by decide)⟩

/-! ## Catalog parser -/

theorem mem_upsert (m : Catalog) (k : String × String) (v : Svc) :
    ∀ e ∈ upsert m k v, e ∈ m ∨ e = (k, v) := by
  intro e he
  rw [upsert] at he
  by_cases hany : m.any (fun e => decide (e.1 = k)) = true
  · rw [if_pos hany] at he
    obtain ⟨e0, he0, heq⟩ := List.mem_map.mp he
    by_cases h0 : e0.1 = k
    · rw [if_pos h0] at heq
      exact Or.inr heq.symm
    · rw [if_neg h0] at heq
      rw [← heq]
      exact Or.inl he0
  · rw [if_neg hany] at he
    rcases List.mem_append.mp he with h | h
    · exact Or.inl h
    · exact Or.inr (List.mem_singleton.mp h)

theorem upsert_hasKey_self (m : Catalog) (k : String × String) (v : Svc) :
    ∃ w, (k, w) ∈ upsert m k v := by
  rw [upsert]
  by_cases hany : m.any (fun e => decide (e.1 = k)) = true
  · rw [if_pos hany]
    obtain ⟨e0, he0, hk⟩ := List.any_eq_true.mp hany
    refine ⟨v, List.mem_map.mpr ⟨e0, he0, ?_⟩⟩
    rw [if_pos (of_decide_eq_true hk)]
  · rw [if_neg hany]
    exact ⟨v, List.mem_append.mpr (Or.inr (List.mem_singleton.mpr rfl))⟩

theorem upsert_hasKey_mono (m : Catalog) (k : String × String) (v : Svc) (k' : String × String) :
    (∃ w, (k', w) ∈ m) → ∃ w, (k', w) ∈ upsert m k v := by
  rintro ⟨w, hw⟩
  by_cases hkk : k' = k
  · subst hkk
    exact upsert_hasKey_self m k' v
  · rw [upsert]
    by_cases hany : m.any (fun e => decide (e.1 = k)) = true
    · rw [if_pos hany]
      refine ⟨w, List.mem_map.mpr ⟨(k', w), hw, ?_⟩⟩
      rw [if_neg (by simpa using hkk)]
    · rw [if_neg hany]
      exact ⟨w, List.mem_append.mpr (Or.inl hw)⟩

theorem rowBody_cases (nsArg : Option String) (nsIdx nameIdx : Int)
    (m : Catalog) (columns : List String) (m' : Catalog)
    (h : rowBody nsArg nsIdx nameIdx m columns = some m') :
    m' = m ∨ ∃ nameColumn, jsGet columns nameIdx = some nameColumn ∧
      (jsSplitChar '-' nameColumn).length > 2 ∧
      m' = upsert m (shortNameOf (nsColumnOf nsArg nsIdx columns) nameColumn, envTagOf nameColumn)
        { id := serviceIdOf nameColumn
        , «namespace» := nsColumnOf nsArg nsIdx columns
        , serviceName := serviceNameOf nameColumn } := by
  rw [rowBody] at h
  cases hg : jsGet columns nameIdx with
  | none => simp only [hg] at h; exact Option.noConfusion h
  | some nameColumn =>
    simp only [hg] at h
    by_cases hlen : (jsSplitChar '-' nameColumn).length > 2
    · rw [if_pos hlen] at h
      injection h with h'
      exact Or.inr ⟨nameColumn, rfl, hlen, h'.symm⟩
    · rw [if_neg hlen] at h
      injection h with h'
      exact Or.inl h'.symm

theorem derivedEntry_of (nsArg : Option String) (nsIdx nameIdx : Int) (line nameColumn : String)
    (hg : jsGet (jsSplitWs line) nameIdx = some nameColumn)
    (hlen : (jsSplitChar '-' nameColumn).length > 2) :
    derivedEntry? nsArg nsIdx nameIdx line
      = some ((shortNameOf (nsColumnOf nsArg nsIdx (jsSplitWs line)) nameColumn, envTagOf nameColumn),
        { id := serviceIdOf nameColumn
        , «namespace» := nsColumnOf nsArg nsIdx (jsSplitWs line)
        , serviceName := serviceNameOf nameColumn }) := by
  rw [derivedEntry?]
  simp only [hg]
  rw [if_pos hlen]

theorem rowStep_body (nsArg : Option String) (nsIdx nameIdx stIdx : Int)
    (m : Catalog) (line : String) (m' : Catalog)
    (h : rowStep nsArg nsIdx nameIdx stIdx m line = some m') :
    m' = m ∨ rowBody nsArg nsIdx nameIdx m (jsSplitWs line) = some m' := by
  rw [rowStep] at h
  cases hsc : (if stIdx ≠ -1 then jsGet (jsSplitWs line) stIdx else none : Option String) with
  | none =>
    simp only [hsc] at h
    exact Or.inr h
  | some st =>
    simp only [hsc] at h
    by_cases hrun : st ≠ "Running"
    · rw [if_pos hrun] at h
      injection h with h'
      exact Or.inl h'.symm
    · rw [if_neg hrun] at h
      exact Or.inr h

theorem rowStep_entries (nsArg : Option String) (nsIdx nameIdx stIdx : Int)
    (m : Catalog) (line : String) (m' : Catalog)
    (h : rowStep nsArg nsIdx nameIdx stIdx m line = some m') :
    ∀ e ∈ m', e ∈ m ∨ derivedEntry? nsArg nsIdx nameIdx line = some e := by
  intro e he
  rcases rowStep_body nsArg nsIdx nameIdx stIdx m line m' h with rfl | hb
  · exact Or.inl he
  · rcases rowBody_cases nsArg nsIdx nameIdx m (jsSplitWs line) m' hb with rfl | ⟨nameColumn, hg, hlen, rfl⟩
    · exact Or.inl he
    · rcases mem_upsert m _ _ e he with h1 | rfl
      · exact Or.inl h1
      · exact Or.inr (derivedEntry_of nsArg nsIdx nameIdx line nameColumn hg hlen)

theorem rowStep_cases (nsArg : Option String) (nsIdx nameIdx stIdx : Int)
    (m : Catalog) (line : String) (m' : Catalog)
    (h : rowStep nsArg nsIdx nameIdx stIdx m line = some m') :
    m' = m ∨ ∃ k v, m' = upsert m k v := by
  rcases rowStep_body nsArg nsIdx nameIdx stIdx m line m' h with rfl | hb
  · exact Or.inl rfl
  · rcases rowBody_cases nsArg nsIdx nameIdx m (jsSplitWs line) m' hb with rfl | ⟨nameColumn, _, _, rfl⟩
    · exact Or.inl rfl
    · exact Or.inr ⟨_, _, rfl⟩

theorem buildFrom_hasKey_mono (nsArg : Option String) (nsIdx nameIdx stIdx : Int) :
    ∀ (rows : List String) (m cat : Catalog) (k : String × String),
    buildFrom nsArg nsIdx nameIdx stIdx m rows = some cat →
    (∃ w, (k, w) ∈ m) → ∃ w, (k, w) ∈ cat := by
  intro rows
  induction rows with
  | nil =>
    intro m cat k h hk
    rw [buildFrom] at h
    injection h with h'
    subst h'
    exact hk
  | cons r rs ih =>
    intro m cat k h hk
    rw [buildFrom] at h
    cases hstep : rowStep nsArg nsIdx nameIdx stIdx m r with
    | none => simp only [hstep] at h; exact Option.noConfusion h
    | some m1 =>
      simp only [hstep] at h
      refine ih m1 cat k h ?_
      rcases rowStep_cases nsArg nsIdx nameIdx stIdx m r m1 hstep with rfl | ⟨k2, v2, rfl⟩
      · exact hk
      · exact upsert_hasKey_mono m k2 v2 k hk

theorem derivedEntry_ns (ns : String) (nsIdx nameIdx : Int) (line : String)
    (e : (String × String) × Svc)
    (h : derivedEntry? (some ns) nsIdx nameIdx line = some e) :
    e.2.«namespace» = some ns := by
  rw [derivedEntry?] at h
  cases hg : jsGet (jsSplitWs line) nameIdx with
  | none => simp only [hg] at h; exact Option.noConfusion h
  | some nameColumn =>
    simp only [hg] at h
    by_cases hlen : (jsSplitChar '-' nameColumn).length > 2
    · rw [if_pos hlen] at h
      injection h with h'
      rw [← h']
      rfl
    · rw [if_neg hlen] at h
      exact Option.noConfusion h

theorem buildFrom_ns_inv (ns : String) (nsIdx nameIdx stIdx : Int) :
    ∀ (rows : List String) (m cat : Catalog),
    buildFrom (some ns) nsIdx nameIdx stIdx m rows = some cat →
    (∀ e ∈ m, e.2.«namespace» = some ns) →
    ∀ e ∈ cat, e.2.«namespace» = some ns := by
  intro rows
  induction rows with
  | nil =>
    intro m cat h hm
    rw [buildFrom] at h
    injection h with h'
    subst h'
    exact hm
  | cons r rs ih =>
    intro m cat h hm
    rw [buildFrom] at h
    cases hstep : rowStep (some ns) nsIdx nameIdx stIdx m r with
    | none => simp only [hstep] at h; exact Option.noConfusion h
    | some m1 =>
      simp only [hstep] at h
      refine ih m1 cat h ?_
      intro e he
      rcases rowStep_entries (some ns) nsIdx nameIdx stIdx m r m1 hstep e he with hin | hder
      · exact hm e hin
      · exact derivedEntry_ns ns nsIdx nameIdx r e hder

/-- Claim C9: with an explicit (non-null) namespace argument every catalog
entry records that namespace in its `namespace` field, whatever the listing's
NAMESPACE column holds; and the derived entry uses the column value only when
no explicit namespace is given. -/
theorem parseServicesMap_explicit_namespace (podsData ns : String) (cat : Catalog)
    (h : parseServicesMap podsData (some ns) = some cat) :
    (∀ e ∈ cat, e.2.«namespace» = some ns)
    ∧ (∀ (nsIdx nameIdx : Int) (line : String) (e : (String × String) × Svc),
        derivedEntry? none nsIdx nameIdx line = some e →
        e.2.«namespace» = jsGet (jsSplitWs line) nsIdx) := by
  constructor
  · rw [parseServicesMap] at h
    exact buildFrom_ns_inv ns _ _ _ (dataRows podsData) [] cat h (by intro e he; cases he)
  · intro nsIdx nameIdx line e hd
    rw [derivedEntry?] at hd
    cases hg : jsGet (jsSplitWs line) nameIdx with
    | none => simp only [hg] at hd; exact Option.noConfusion hd
    | some nameColumn =>
      simp only [hg] at hd
      by_cases hlen : (jsSplitChar '-' nameColumn).length > 2
      · rw [if_pos hlen] at hd
        injection hd with h'
        rw [← h']
        rfl
      · rw [if_neg hlen] at hd
        exact Option.noConfusion hd

/-- Witness for C9: on a concrete listing whose NAMESPACE column holds
`team1`, the explicit namespace `other` is recorded in every entry. -/
theorem parseServicesMap_explicit_namespace_witness :
    ∃ cat, parseServicesMap samplePodsStatus (some "other") = some cat
      ∧ ∀ e ∈ cat, e.2.«namespace» = some "other" := by
  refine ⟨_, rfl, ?_⟩
  exact (parseServicesMap_explicit_namespace samplePodsStatus "other" _ rfl).1

theorem rowStep_skip (nsArg : Option String) (nsIdx nameIdx stIdx : Int)
    (m : Catalog) (line : String)
    (hst : stIdx ≠ -1) (hkeep : statusKeep stIdx line = false) :
    rowStep nsArg nsIdx nameIdx stIdx m line = some m := by
  rw [statusKeep] at hkeep
  rw [rowStep, if_pos hst]
  cases hg : jsGet (jsSplitWs line) stIdx with
  | none =>
    simp only [hg] at hkeep
    exact Bool.noConfusion hkeep
  | some st =>
    simp only [hg] at hkeep ⊢
    have hne : st ≠ "Running" := by
      simp only [beq_eq_false_iff_ne, ne_eq] at hkeep
      exact hkeep
    rw [if_pos hne]

theorem buildFrom_filter (nsArg : Option String) (nsIdx nameIdx stIdx : Int) (hst : stIdx ≠ -1) :
    ∀ (rows : List String) (m : Catalog),
    buildFrom nsArg nsIdx nameIdx stIdx m rows
      = buildFrom nsArg nsIdx nameIdx stIdx m (rows.filter (statusKeep stIdx)) := by
  intro rows
  induction rows with
  | nil => intro m; rfl
  | cons r rs ih =>
    intro m
    rw [List.filter_cons]
    by_cases hk : statusKeep stIdx r = true
    · rw [if_pos hk]
      rw [buildFrom, buildFrom]
      cases hstep : rowStep nsArg nsIdx nameIdx stIdx m r with
      | none => simp only [hstep]
      | some m1 =>
        simp only [hstep]
        exact ih m1
    · have hk' : statusKeep stIdx r = false := by
        revert hk
        cases statusKeep stIdx r <;> simp
      rw [if_neg (by simp [hk'])]
      rw [buildFrom, rowStep_skip nsArg nsIdx nameIdx stIdx m r hst hk']
      exact ih m

theorem rowHasService_elim (nameIdx : Int) (row : String)
    (h : rowHasService nameIdx row = true) :
    ∃ nm, jsGet (jsSplitWs row) nameIdx = some nm ∧ (jsSplitChar '-' nm).length > 2 := by
  rw [rowHasService] at h
  cases hg : jsGet (jsSplitWs row) nameIdx with
  | none =>
    simp only [hg] at h
    exact Bool.noConfusion h
  | some nm =>
    simp only [hg] at h
    exact ⟨nm, rfl, of_decide_eq_true h⟩

theorem rowStep_noStatus (nsArg : Option String) (nsIdx nameIdx : Int)
    (m : Catalog) (line : String) :
    rowStep nsArg nsIdx nameIdx (-1) m line = rowBody nsArg nsIdx nameIdx m (jsSplitWs line) := by
  rw [rowStep, if_neg (by simp : ¬((-1 : Int) ≠ -1))]

theorem rowStep_contrib (nsArg : Option String) (nsIdx nameIdx : Int) (m : Catalog) (row : String)
    (hsvc : rowHasService nameIdx row = true) :
    ∃ m', rowStep nsArg nsIdx nameIdx (-1) m row = some m'
      ∧ ∃ w, (rowKey nsArg nsIdx nameIdx row, w) ∈ m' := by
  obtain ⟨nm, hg, hlen⟩ := rowHasService_elim nameIdx row hsvc
  have hkey : rowKey nsArg nsIdx nameIdx row
      = (shortNameOf (nsColumnOf nsArg nsIdx (jsSplitWs row)) nm, envTagOf nm) := by
    rw [rowKey]
    simp only [hg]
  refine ⟨upsert m (shortNameOf (nsColumnOf nsArg nsIdx (jsSplitWs row)) nm, envTagOf nm)
      { id := serviceIdOf nm
      , «namespace» := nsColumnOf nsArg nsIdx (jsSplitWs row)
      , serviceName := serviceNameOf nm }, ?_, ?_⟩
  · rw [rowStep_noStatus, rowBody]
    simp only [hg]
    rw [if_pos hlen]
  · rw [hkey]
    exact upsert_hasKey_self m _ _

theorem buildFrom_contrib (nsArg : Option String) (nsIdx nameIdx : Int) :
    ∀ (rows : List String) (m cat : Catalog),
    buildFrom nsArg nsIdx nameIdx (-1) m rows = some cat →
    ∀ row ∈ rows, rowHasService nameIdx row = true →
    ∃ w, (rowKey nsArg nsIdx nameIdx row, w) ∈ cat := by
  intro rows
  induction rows with
  | nil =>
    intro m cat h row hrow
    cases hrow
  | cons r rs ih =>
    intro m cat h row hrow hsvc
    rw [buildFrom] at h
    cases hstep : rowStep nsArg nsIdx nameIdx (-1) m r with
    | none =>
      simp only [hstep] at h
      exact Option.noConfusion h
    | some m1 =>
      simp only [hstep] at h
      rcases List.mem_cons.mp hrow with rfl | hrow'
      · obtain ⟨m1', hstep', hkey⟩ := rowStep_contrib nsArg nsIdx nameIdx m row hsvc
        rw [hstep'] at hstep
        injection hstep with he
        subst he
        exact buildFrom_hasKey_mono nsArg nsIdx nameIdx (-1) rs _ cat _ h hkey
      · exact ih m1 cat h row hrow' hsvc

/-- Claim C5: when the header has a STATUS column, the catalog equals the one
built from only the rows whose status cell is missing or `"Running"` (rows
with any other status value contribute nothing); when the header has no
STATUS column, no status filtering happens and every data row whose name cell
has at least 3 hyphen segments contributes its key to the catalog. -/
theorem parseServicesMap_status_filtering (podsData : String) (nsArg : Option String) :
    (jsIndexOf (jsSplitWs (headLine podsData)) "STATUS" ≠ -1 →
      parseServicesMap podsData nsArg
        = buildFrom nsArg (jsIndexOf (jsSplitWs (headLine podsData)) "NAMESPACE")
            (jsIndexOf (jsSplitWs (headLine podsData)) "NAME")
            (jsIndexOf (jsSplitWs (headLine podsData)) "STATUS") []
            ((dataRows podsData).filter (statusKeep (jsIndexOf (jsSplitWs (headLine podsData)) "STATUS"))))
    ∧ (jsIndexOf (jsSplitWs (headLine podsData)) "STATUS" = -1 →
        ∀ row ∈ dataRows podsData,
          rowHasService (jsIndexOf (jsSplitWs (headLine podsData)) "NAME") row = true →
          ∀ cat, parseServicesMap podsData nsArg = some cat →
          ∃ w, (rowKey nsArg (jsIndexOf (jsSplitWs (headLine podsData)) "NAMESPACE")
                  (jsIndexOf (jsSplitWs (headLine podsData)) "NAME") row, w) ∈ cat) := by
  constructor
  · intro hst
    rw [parseServicesMap]
    exact buildFrom_filter nsArg _ _ _ hst (dataRows podsData) []
  · intro hst row hrow hsvc cat hcat
    rw [parseServicesMap] at hcat
    rw [hst] at hcat
    exact buildFrom_contrib nsArg _ _ (dataRows podsData) [] cat hcat row hrow hsvc

/-- Witness for C5: on a concrete listing with a STATUS column the Pending
row is filtered out; on a concrete listing without one, the 4-segment row
contributes its key. -/
theorem parseServicesMap_status_filtering_witness :
    (parseServicesMap samplePodsStatus none
      = buildFrom none (jsIndexOf (jsSplitWs (headLine samplePodsStatus)) "NAMESPACE")
          (jsIndexOf (jsSplitWs (headLine samplePodsStatus)) "NAME")
          (jsIndexOf (jsSplitWs (headLine samplePodsStatus)) "STATUS") []
          ((dataRows samplePodsStatus).filter
            (statusKeep (jsIndexOf (jsSplitWs (headLine samplePodsStatus)) "STATUS"))))
    ∧ (∃ cat, parseServicesMap samplePodsNoStatus none = some cat
        ∧ ∃ w, (rowKey none (jsIndexOf (jsSplitWs (headLine samplePodsNoStatus)) "NAMESPACE")
                  (jsIndexOf (jsSplitWs (headLine samplePodsNoStatus)) "NAME")
                  "team1 dev-checkout-abc-123", w) ∈ cat) := by
  constructor
  · exact (parseServicesMap_status_filtering samplePodsStatus none).1 (by decide)
  · refine ⟨_, rfl, ?_⟩
    exact (parseServicesMap_status_filtering samplePodsNoStatus none).2 (by decide)
      "team1 dev-checkout-abc-123" (by decide) (by decide) _ rfl

/-! ## Child output multiplexing -/

theorem strData_append (a b : String) : (a ++ b).data = a.data ++ b.data := rfl

theorem normalizeNewlines_of_noNL :
    ∀ cs : List Char, (∀ c ∈ cs, c ≠ '\n' ∧ c ≠ '\r') → normalizeNewlines cs = cs := by
  intro cs
  induction cs with
  | nil => intro _; rfl
  | cons c cs ih =>
    intro h
    have hc := h c (List.mem_cons_self c cs)
    cases cs with
    | nil =>
      rw [normalizeNewlines, if_neg hc.2]
    | cons c2 cs2 =>
      rw [normalizeNewlines, if_neg hc.2]
      rw [ih (fun x hx => h x (List.mem_cons_of_mem c hx))]

theorem splitCharGo_noSep (sep : Char) :
    ∀ (cs acc : List Char), (∀ c ∈ cs, ¬(c = sep)) →
    splitCharGo sep cs acc = [String.mk (acc.reverse ++ cs)] := by
  intro cs
  induction cs with
  | nil => intro acc _; simp [splitCharGo]
  | cons c cs ih =>
    intro acc h
    have hc : ¬((c == sep) = true) := by
      simpa using h c (List.mem_cons_self c cs)
    rw [splitCharGo, if_neg hc]
    rw [ih (c :: acc) (fun x hx => h x (List.mem_cons_of_mem c hx))]
    congr 1
    simp

theorem writePrefixedLines_single (color : Color) (pfx s : String)
    (hnl : ∀ c ∈ s.data, c ≠ '\n' ∧ c ≠ '\r') (hne : s ≠ "") :
    writePrefixedLines color pfx s = [(color, pfx ++ " " ++ s)] := by
  rw [writePrefixedLines, normalizeNewlines_of_noNL s.data hnl]
  have hmk : String.mk s.data = s := rfl
  rw [hmk, jsSplitChar, splitCharGo_noSep '\n' s.data [] (fun c hc => (hnl c hc).1)]
  simp only [List.reverse_nil, List.nil_append, hmk]
  rw [dropTrailingEmpty, if_neg hne]
  rfl

theorem annCount_append (a b : List (Color × String)) :
    annCount (a ++ b) = annCount a + annCount b := by
  simp [annCount, List.filter_append]

theorem annCount_map_const (color : Color) (hc : color ≠ Color.magenta) (f : String → String) :
    ∀ ls : List String, annCount (ls.map (fun l => (color, f l))) = 0 := by
  intro ls
  induction ls with
  | nil => rfl
  | cons l ls ih =>
    rw [List.map_cons]
    simp only [annCount, List.filter_cons]
    rw [if_neg (by simp [hc])]
    simp only [annCount] at ih
    exact ih

theorem annCount_writePrefixedLines (color : Color) (hc : color ≠ Color.magenta) (pfx s : String) :
    annCount (writePrefixedLines color pfx s) = 0 := by
  rw [writePrefixedLines]
  exact annCount_map_const color hc (fun l => pfx ++ " " ++ l) _

theorem renderEvs_cons (pfx : String) (e : ChildEvent) (es : List ChildEvent) :
    renderEvs pfx (e :: es)
      = (match e with
          | ChildEvent.stdout c => writePrefixedLines Color.green pfx c
          | ChildEvent.stderr c => writePrefixedLines Color.red pfx c) ++ renderEvs pfx es := by
  rw [renderEvs, renderEvs, List.map_cons, List.flatten_cons]

theorem annCount_renderEvs (pfx : String) : ∀ evs, annCount (renderEvs pfx evs) = 0 := by
  intro evs
  induction evs with
  | nil => rfl
  | cons e es ih =>
    rw [renderEvs_cons, annCount_append, ih]
    cases e with
    | stdout c => rw [annCount_writePrefixedLines Color.green (by simp) pfx c]
    | stderr c => rw [annCount_writePrefixedLines Color.red (by simp) pfx c]

theorem childStep_stdout_true (pfx lp : String) (st : ChildState) (c : String)
    (h : st.printedAvailable = true) :
    childStep pfx lp st (ChildEvent.stdout c)
      = { st with out := st.out ++ writePrefixedLines Color.green pfx c } := by
  simp only [childStep, h, if_true]

theorem childStep_stdout_false (pfx lp : String) (st : ChildState) (c : String)
    (h : st.printedAvailable = false) :
    childStep pfx lp st (ChildEvent.stdout c)
      = { printedAvailable := true
        , out := (st.out ++ writePrefixedLines Color.magenta pfx (availableMsg lp))
            ++ writePrefixedLines Color.green pfx c } := by
  simp only [childStep, h]
  rfl

theorem childStep_stderr (pfx lp : String) (st : ChildState) (c : String) :
    childStep pfx lp st (ChildEvent.stderr c)
      = { st with out := st.out ++ writePrefixedLines Color.red pfx c } := rfl

theorem foldl_out_append (pfx lp : String) :
    ∀ (evs : List ChildEvent) (st : ChildState),
    ∃ d, (evs.foldl (childStep pfx lp) st).out = st.out ++ d := by
  intro evs
  induction evs with
  | nil => intro st; exact ⟨[], by simp⟩
  | cons e es ih =>
    intro st
    rw [List.foldl_cons]
    obtain ⟨d2, hd2⟩ := ih (childStep pfx lp st e)
    have hstep : ∃ d1, (childStep pfx lp st e).out = st.out ++ d1 := by
      cases e with
      | stdout c =>
        cases hpa : st.printedAvailable with
        | true =>
          rw [childStep_stdout_true pfx lp st c hpa]
          exact ⟨writePrefixedLines Color.green pfx c, rfl⟩
        | false =>
          rw [childStep_stdout_false pfx lp st c hpa]
          exact ⟨writePrefixedLines Color.magenta pfx (availableMsg lp)
            ++ writePrefixedLines Color.green pfx c, by simp⟩
      | stderr c =>
        rw [childStep_stderr]
        exact ⟨writePrefixedLines Color.red pfx c, rfl⟩
    obtain ⟨d1, hd1⟩ := hstep
    exact ⟨d1 ++ d2, by rw [hd2, hd1, List.append_assoc]⟩

theorem foldl_flag_true (pfx lp : String) :
    ∀ (evs : List ChildEvent) (st : ChildState),
    st.printedAvailable = true →
    (evs.foldl (childStep pfx lp) st).printedAvailable = true
    ∧ annCount (evs.foldl (childStep pfx lp) st).out = annCount st.out := by
  intro evs
  induction evs with
  | nil => intro st h; exact ⟨h, rfl⟩
  | cons e es ih =>
    intro st h
    rw [List.foldl_cons]
    cases e with
    | stdout c =>
      rw [childStep_stdout_true pfx lp st c h]
      obtain ⟨h1, h2⟩ := ih { st with out := st.out ++ writePrefixedLines Color.green pfx c } h
      refine ⟨h1, ?_⟩
      rw [h2]
      simp only []
      rw [annCount_append, annCount_writePrefixedLines Color.green (by simp) pfx c]
      omega
    | stderr c =>
      rw [childStep_stderr]
      obtain ⟨h1, h2⟩ := ih { st with out := st.out ++ writePrefixedLines Color.red pfx c } h
      refine ⟨h1, ?_⟩
      rw [h2]
      simp only []
      rw [annCount_append, annCount_writePrefixedLines Color.red (by simp) pfx c]
      omega

theorem foldl_stderr_run (pfx lp : String) :
    ∀ (evs : List ChildEvent) (st : ChildState),
    (∀ e ∈ evs, isStderrEv e = true) →
    evs.foldl (childStep pfx lp) st
      = { printedAvailable := st.printedAvailable, out := st.out ++ renderEvs pfx evs } := by
  intro evs
  induction evs with
  | nil =>
    intro st _
    simp [renderEvs]
  | cons e es ih =>
    intro st h
    cases e with
    | stdout c =>
      have := h (ChildEvent.stdout c) (List.mem_cons_self _ _)
      exact Bool.noConfusion this
    | stderr c =>
      rw [List.foldl_cons, childStep_stderr]
      rw [ih { st with out := st.out ++ writePrefixedLines Color.red pfx c }
        (fun x hx => h x (List.mem_cons_of_mem _ hx))]
      rw [renderEvs_cons]
      simp [List.append_assoc]

theorem foldl_annCount_inv (pfx lp : String)
    (hann : annCount (writePrefixedLines Color.magenta pfx (availableMsg lp)) = 1) :
    ∀ (evs : List ChildEvent) (st : ChildState),
    annCount st.out ≤ 1 → (st.printedAvailable = false → annCount st.out = 0) →
    annCount (evs.foldl (childStep pfx lp) st).out ≤ 1 := by
  intro evs
  induction evs with
  | nil => intro st h1 _; exact h1
  | cons e es ih =>
    intro st h1 h2
    rw [List.foldl_cons]
    cases e with
    | stdout c =>
      cases hpa : st.printedAvailable with
      | true =>
        rw [childStep_stdout_true pfx lp st c hpa]
        refine ih _ ?_ ?_
        · simp only []
          rw [annCount_append, annCount_writePrefixedLines Color.green (by simp) pfx c]
          omega
        · intro hf
          simp only [] at hf
          rw [hpa] at hf
          exact Bool.noConfusion hf
      | false =>
        rw [childStep_stdout_false pfx lp st c hpa]
        refine ih _ ?_ ?_
        · simp only []
          rw [annCount_append, annCount_append, hann, h2 hpa,
            annCount_writePrefixedLines Color.green (by simp) pfx c]
        · intro hf
          exact Bool.noConfusion hf
    | stderr c =>
      rw [childStep_stderr]
      refine ih _ ?_ ?_
      · simp only []
        rw [annCount_append, annCount_writePrefixedLines Color.red (by simp) pfx c]
        omega
      · intro hf
        simp only [] at hf
        rw [annCount_append, annCount_writePrefixedLines Color.red (by simp) pfx c]
        rw [h2 hf]

theorem noNewlineStr_elim (s : String) (h : noNewlineStr s = true) :
    ∀ c ∈ s.data, c ≠ '\n' ∧ c ≠ '\r' := by
  intro c hc
  rw [noNewlineStr] at h
  have hx := List.all_eq_true.mp h c hc
  simp at hx
  exact hx

theorem availableMsg_noNL (lp : String) (hlp : ∀ c ∈ lp.data, c ≠ '\n' ∧ c ≠ '\r') :
    ∀ c ∈ (availableMsg lp).data, c ≠ '\n' ∧ c ≠ '\r' := by
  intro c hc
  rw [availableMsg, strData_append] at hc
  have hlit : ∀ x ∈ ("Service available at: http://localhost:").data, x ≠ '\n' ∧ x ≠ '\r' := by
    decide
  rcases List.mem_append.mp hc with h | h
  · exact hlit c h
  · exact hlp c h

theorem availableMsg_ne (lp : String) : availableMsg lp ≠ "" := by
  rw [availableMsg]
  intro h
  have hd := congrArg String.data h
  rw [strData_append] at hd
  rcases List.append_eq_nil.mp hd with ⟨h1, _⟩
  exact absurd h1 (by decide)

theorem first_stdout_decomp :
    ∀ evs : List ChildEvent, (∃ e ∈ evs, isStdoutEv e = true) →
    ∃ pre c post, evs = pre ++ ChildEvent.stdout c :: post ∧ ∀ e ∈ pre, isStderrEv e = true := by
  intro evs
  induction evs with
  | nil => rintro ⟨e, he, _⟩; cases he
  | cons e es ih =>
    rintro ⟨e0, he0, hstd⟩
    cases e with
    | stdout c => exact ⟨[], c, es, rfl, by intro x hx; cases hx⟩
    | stderr c =>
      have hes : ∃ x ∈ es, isStdoutEv x = true := by
        rcases List.mem_cons.mp he0 with rfl | h'
        · exact absurd hstd (by simp [isStdoutEv])
        · exact ⟨e0, h', hstd⟩
      obtain ⟨pre, c2, post, heq, hpre⟩ := ih hes
      refine ⟨ChildEvent.stderr c :: pre, c2, post, by rw [heq]; rfl, ?_⟩
      intro x hx
      rcases List.mem_cons.mp hx with rfl | hx'
      · rfl
      · exact hpre x hx'

theorem runChild_decomp (pfx lp : String)
    (hann : writePrefixedLines Color.magenta pfx (availableMsg lp) = [annLine pfx lp])
    (preEvs : List ChildEvent) (chunk : String) (postEvs : List ChildEvent)
    (hpre : ∀ e ∈ preEvs, isStderrEv e = true) :
    (∃ tail, (runChild pfx lp (preEvs ++ ChildEvent.stdout chunk :: postEvs)).out
        = renderEvs pfx preEvs ++ annLine pfx lp :: (writePrefixedLines Color.green pfx chunk ++ tail))
    ∧ annCount (runChild pfx lp (preEvs ++ ChildEvent.stdout chunk :: postEvs)).out = 1 := by
  rw [runChild, List.foldl_append, foldl_stderr_run pfx lp preEvs childInit hpre]
  rw [List.foldl_cons]
  rw [childStep_stdout_false pfx lp _ chunk rfl]
  rw [hann]
  set st3 : ChildState :=
    { printedAvailable := true
    , out := (({ printedAvailable := childInit.printedAvailable
               , out := childInit.out ++ renderEvs pfx preEvs } : ChildState).out
          ++ [annLine pfx lp]) ++ writePrefixedLines Color.green pfx chunk } with hst3
  obtain ⟨d, hd⟩ := foldl_out_append pfx lp postEvs st3
  have hflag := foldl_flag_true pfx lp postEvs st3 rfl
  constructor
  · refine ⟨d, ?_⟩
    rw [hd, hst3]
    simp [childInit, List.append_assoc]
  · rw [hflag.2, hst3]
    simp only [childInit]
    rw [annCount_append, annCount_append,
      annCount_writePrefixedLines Color.green (by simp) pfx chunk]
    have h0 : annCount (List.nil ++ renderEvs pfx preEvs) = 0 := by
      rw [List.nil_append]
      exact annCount_renderEvs pfx preEvs
    rw [h0]
    rfl

/-- Claim C4: per spawned child, the local-endpoint announcement (the magenta
write) is emitted at most once — exactly once as soon as some stdout chunk
arrives, placed after the prefixed stderr output that preceded the first
stdout chunk and immediately before that chunk's own prefixed content — and a
stream of stderr chunks alone never triggers it. -/
theorem firstChunk_announcement (pfx lp : String) (events : List ChildEvent)
    (hlp : noNewlineStr lp = true) :
    annCount (runChild pfx lp events).out ≤ 1
    ∧ ((∀ e ∈ events, isStderrEv e = true) → annCount (runChild pfx lp events).out = 0)
    ∧ ((∃ e ∈ events, isStdoutEv e = true) → annCount (runChild pfx lp events).out = 1)
    ∧ (∀ preEvs chunk postEvs,
        events = preEvs ++ ChildEvent.stdout chunk :: postEvs →
        (∀ e ∈ preEvs, isStderrEv e = true) →
        ∃ tail, (runChild pfx lp events).out
          = renderEvs pfx preEvs ++ annLine pfx lp :: (writePrefixedLines Color.green pfx chunk ++ tail)) := by
  have hnl := noNewlineStr_elim lp hlp
  have hann : writePrefixedLines Color.magenta pfx (availableMsg lp) = [annLine pfx lp] :=
    writePrefixedLines_single Color.magenta pfx (availableMsg lp)
      (availableMsg_noNL lp hnl) (availableMsg_ne lp)
  have hann1 : annCount (writePrefixedLines Color.magenta pfx (availableMsg lp)) = 1 := by
    rw [hann]
    rfl
  refine ⟨?_, ?_, ?_, ?_⟩
  · rw [runChild]
    exact foldl_annCount_inv pfx lp hann1 events childInit (by simp [childInit, annCount]) (fun _ => rfl)
  · intro h
    rw [runChild, foldl_stderr_run pfx lp events childInit h]
    simp only [childInit, List.nil_append]
    exact annCount_renderEvs pfx events
  · intro hex
    obtain ⟨pre, c, post, heq, hpre⟩ := first_stdout_decomp events hex
    subst heq
    exact (runChild_decomp pfx lp hann pre c post hpre).2
  · intro preEvs chunk postEvs heq hpre
    subst heq
    exact (runChild_decomp pfx lp hann preEvs chunk postEvs hpre).1

/-- Witness for C4: one stderr chunk, then two stdout chunks — the
announcement appears exactly once, between the stderr output and the first
stdout chunk's content. -/
theorem firstChunk_announcement_witness :
    (∃ tail, (runChild "[svc:3000]" "3000"
        [ChildEvent.stderr "w", ChildEvent.stdout "ok", ChildEvent.stdout "x"]).out
      = renderEvs "[svc:3000]" [ChildEvent.stderr "w"]
          ++ annLine "[svc:3000]" "3000"
            :: (writePrefixedLines Color.green "[svc:3000]" "ok" ++ tail))
    ∧ annCount (runChild "[svc:3000]" "3000"
        [ChildEvent.stderr "w", ChildEvent.stdout "ok", ChildEvent.stdout "x"]).out = 1 := by
  have h := firstChunk_announcement "[svc:3000]" "3000"
    [ChildEvent.stderr "w", ChildEvent.stdout "ok", ChildEvent.stdout "x"] (by decide)
  exact ⟨h.2.2.2 [ChildEvent.stderr "w"] "ok" [ChildEvent.stdout "x"] rfl (by decide),
    h.2.2.1 (by decide)⟩
